import Mathlib

/-!
Shallow embedding of the robot's core pipeline (robot_framework/process.py):
the concurrent lookup scheduler (threaded_service_check), the sequential
scheduler (linear_service_check), the spreadsheet annotator
(write_data_to_output_excel), the request-text interpreter
(_get_recipient_from_email / _get_request_type_from_email) and the
top-level per-mail loop (process).

Modelling conventions:
* An openpyxl worksheet is a `Sheet`: tracked dimensions (`max_row`,
  `max_column`, always at least 1 on real workbooks) plus a finite cell
  assignment; an unset cell reads as `none` (Python `None`).
* A cell value used as a dictionary key is `Ident := Option String`
  (`row[0].value` may be `None`).
* A Python dict preserves insertion order and overwrites in place, so
  `dict[str, dict[str, bool]]` is an association list with
  insertion-ordered keys (`ResultMap`); `rmInsert` reproduces
  `data[cpr][service_type] = result` exactly.
* The thread pool of `threaded_service_check` submits one task per
  (row, service) pair in row-major order and consumes results in an
  arbitrary completion order; the completion order is modelled as an
  explicit list `completion` which theorems constrain to be a permutation
  of the submitted task list (`submittedTasks`).
* `digital_post.is_registered` is an external call, modelled as an
  arbitrary deterministic function `f : Ident → String → Bool`.
* Python exceptions that propagate out of a function (KeyError in the
  annotator, IndexError in the regex helpers, an SMTP failure) are
  modelled with `Except` / `Option`: an `error`/`none` result means the
  exception escapes and the surrounding computation is aborted.
-/

namespace UdtraekDigitalPost

/-- A cell value used as a dict key: `row[0].value`, possibly `None`. -/
abbrev Ident := Option String

/-- The service-name formatting `s.replace(" ", "").lower()` applied before
each lookup call (process.py lines 121 and 154). -/
def normalizeService (s : String) : String :=
  ((s.toList.filter (fun c => c ≠ ' ')).map Char.toLower).asString

/-- The human-readable status written to the sheet:
`"Tilmeldt" if status else "Ikke tilmeldt"` (process.py line 181). -/
def statusText (b : Bool) : String :=
  if b then "Tilmeldt" else "Ikke tilmeldt"

/-- The inner dict `dict[str, bool]` of a `ResultMap`, with Python's
insertion-order semantics. -/
abbrev InnerMap := List (String × Bool)

/-- The result dictionary `dict[str, dict[str, bool]]` built by the two
service-check functions. -/
abbrev ResultMap := List (Ident × InnerMap)

/-- Python `inner[s] = b`: overwrite in place if the key exists, else append. -/
def innerInsert : InnerMap → String → Bool → InnerMap
  | [], s, b => [(s, b)]
  | (s', b') :: rest, s, b =>
    if s = s' then (s, b) :: rest else (s', b') :: innerInsert rest s b

/-- Python `inner[s]` as a total lookup (`none` = KeyError). -/
def innerLookup : InnerMap → String → Option Bool
  | [], _ => none
  | (s', b) :: rest, s => if s = s' then some b else innerLookup rest s

/-- Python `data[cpr][service_type] = result`, including the
`if cpr not in data: data[cpr] = {}` step (process.py lines 130-132). -/
def rmInsert : ResultMap → Ident → String → Bool → ResultMap
  | [], c, s, b => [(c, [(s, b)])]
  | (c', inner) :: rest, c, s, b =>
    if c = c' then (c, innerInsert inner s b) :: rest
    else (c', inner) :: rmInsert rest c s b

/-- Python `data[cpr][s]` as a total lookup (`none` = KeyError on either level). -/
def dLookup : ResultMap → Ident → String → Option Bool
  | [], _, _ => none
  | (c', inner) :: rest, c, s =>
    if c = c' then innerLookup inner s else dLookup rest c s

/-- Whether `cpr in data` holds for the outer dict. -/
def rmHasKey (d : ResultMap) (c : Ident) : Bool :=
  d.any (fun p => decide (p.1 = c))

/-- Total number of (Identifier, ServiceKind) entries stored in the map. -/
def rmSize (d : ResultMap) : Nat :=
  (d.map (fun p => p.2.length)).sum

/-- Python `==` on the nested dicts: same outer keys and the same value (or
absence) at every inner key. Insertion order is irrelevant to dict equality. -/
def rmEquiv (d₁ d₂ : ResultMap) : Prop :=
  (∀ c, rmHasKey d₁ c = rmHasKey d₂ c) ∧ ∀ c s, dLookup d₁ c s = dLookup d₂ c s

/-- Insert the results of a list of (cpr, service_type) tasks, in order, each
with the value produced by the lookup function `f`. This is the common loop
body of both service-check functions. -/
def buildMap (f : Ident → String → Bool) (tasks : List (Ident × String)) : ResultMap :=
  tasks.foldl (fun d t => rmInsert d t.1 t.2 (f t.1 t.2)) []

/-- An openpyxl worksheet: tracked dimensions plus the finitely many set
cells, addressed 1-based as (row, column). -/
structure Sheet where
  nrows : Nat
  ncols : Nat
  cells : List ((Nat × Nat) × String)
deriving DecidableEq, Repr

/-- Read the stored value at an address (later entries never shadow earlier
ones because `setCells` keeps addresses unique). -/
def lookupCell : List ((Nat × Nat) × String) → Nat → Nat → Option String
  | [], _, _ => none
  | (rc, v) :: rest, r, c => if rc = (r, c) then some v else lookupCell rest r c

/-- Update the stored cells at an address, in place if it exists. -/
def setCells : List ((Nat × Nat) × String) → Nat → Nat → String → List ((Nat × Nat) × String)
  | [], r, c, v => [((r, c), v)]
  | (rc, w) :: rest, r, c, v =>
    if rc = (r, c) then (rc, v) :: rest else (rc, w) :: setCells rest r c v

/-- Read a cell value; an unset cell is `None`. -/
def Sheet.getCell (sh : Sheet) (r c : Nat) : Option String :=
  lookupCell sh.cells r c

/-- Write a cell value, extending `max_row`/`max_column` as openpyxl does. -/
def Sheet.setCell (sh : Sheet) (r c : Nat) (v : String) : Sheet :=
  { nrows := max sh.nrows r, ncols := max sh.ncols c, cells := setCells sh.cells r c v }

/-- The data-row indices 2..max_row (the iteration of `iter(input_sheet)`
after the `next(iter_)` header skip, and of `iter_rows(min_row=2)`). -/
def dataRows (sh : Sheet) : List Nat :=
  List.range' 2 (sh.nrows - 1)

/-- The identifier column: `row[0].value` for every data row. -/
def colA (sh : Sheet) : List Ident :=
  (dataRows sh).map (fun r => sh.getCell r 1)

/-- The tasks submitted to the thread pool, in submission order: for each data
row and each requested service one (cpr, normalized service) pair
(process.py lines 118-124). -/
def submittedTasks (input_sheet : Sheet) (service : List String) : List (Ident × String) :=
  (colA input_sheet).flatMap (fun cpr => service.map (fun s => (cpr, normalizeService s)))

/-- Concurrent scheduler (process.py lines 101-133): results are inserted in
the order futures complete. The completion order is the explicit argument
`completion`; a run of the real scheduler corresponds to any `completion`
that is a permutation of `submittedTasks input_sheet service`, and theorems
quantify over all such permutations. -/
def threaded_service_check (f : Ident → String → Bool)
    (completion : List (Ident × String)) : ResultMap :=
  buildMap f completion

/-- Sequential scheduler (process.py lines 136-160): same insertions, in
submission order. -/
def linear_service_check (f : Ident → String → Bool) (input_sheet : Sheet)
    (service : List String) : ResultMap :=
  buildMap f (submittedTasks input_sheet service)

/-- Inner row loop of the annotator for one service column: for each listed
row index read the identifier in column 1, look it up, and write the status
text; a missing key is Python's KeyError (process.py lines 177-182). -/
def writeRows (data : ResultMap) (sN : String) (col : Nat) :
    List Nat → Sheet → Except String Sheet
  | [], sh => .ok sh
  | r :: rs, sh =>
    match dLookup data (sh.getCell r 1) sN with
    | some b => writeRows data sN col rs (sh.setCell r col (statusText b))
    | none => .error "KeyError"

/-- One iteration of the annotator's service loop: write the header cell in
row 1, then fill the column for every data row (process.py lines 173-182). -/
def writeService (data : ResultMap) (s : String) (col : Nat) (sh : Sheet) :
    Except String Sheet :=
  let sh1 := sh.setCell 1 col s
  writeRows data (normalizeService s) col (dataRows sh1) sh1

/-- The annotator's loop over services with its running column index
(`enumerate(service, start=sheet_column_count + 1)`). -/
def writeCols (data : ResultMap) : List String → Nat → Sheet → Except String Sheet
  | [], _, sh => .ok sh
  | s :: rest, col, sh =>
    match writeService data s col sh with
    | .ok sh' => writeCols data rest (col + 1) sh'
    | .error e => .error e

/-- Annotator (process.py lines 163-182): the starting column is
`target_sheet.max_column + 1`, read once before the loop. An `error` result
models the KeyError escaping the function. -/
def write_data_to_output_excel (service : List String) (data : ResultMap)
    (target_sheet : Sheet) : Except String Sheet :=
  writeCols data service (target_sheet.ncols + 1) target_sheet

/-- Whether `marker` occurs at the head of a character list. -/
def startsWith : List Char → List Char → Bool
  | [], _ => true
  | _ :: _, [] => false
  | m :: ms, c :: cs => m = c && startsWith ms cs

/-- Leftmost regex match of `marker` followed by a non-empty capture of
characters satisfying `good`: the behaviour of
`re.findall(marker + "([good]+)", text)[0]`, with `none` for the IndexError
raised on an empty findall result. -/
def findCapture (marker : List Char) (good : Char → Bool) : List Char → Option (List Char)
  | [] => none
  | c :: cs =>
    if startsWith marker (c :: cs) then
      let cap := ((c :: cs).drop marker.length).takeWhile good
      if cap.isEmpty then findCapture marker good cs else some cap
    else findCapture marker good cs

/-- Requester-address extraction, pattern `mailto:([^\x22]+)`
(process.py lines 185-188). -/
def _get_recipient_from_email (user_data : String) : Option String :=
  (findCapture ("mailto:".toList) (fun c => !(c == '"')) user_data.toList).map List.asString

/-- Request-type extraction, pattern `Digital Post eller NemSMS<br>([^<]+)`
(process.py lines 191-194). -/
def _get_request_type_from_email (user_data : String) : Option String :=
  (findCapture ("Digital Post eller NemSMS<br>".toList) (fun c => !(c == '<'))
    user_data.toList).map List.asString

/-- Requested service list for a request type:
`["Digital Post", "NemSMS"] if service_type == "Begge" else [service_type]`
(process.py line 85). -/
def serviceFor (service_type : String) : List String :=
  if service_type = "Begge" then ["Digital Post", "NemSMS"] else [service_type]

/-- Per-request pipeline `handle_data` (process.py lines 71-98): run the
scheduler over the attachment sheet and annotate it; returns the annotated
sheet and `input_sheet.max_row`. The scheduler is run with the submission
order as completion order, which by `dLookup_buildMap` /
`rmHasKey_buildMap` yields the same dictionary contents as any completion
order. -/
def handle_data (f : Ident → String → Bool) (input_file : Sheet)
    (service_type : String) : Except String (Sheet × Nat) :=
  let service := serviceFor service_type
  let data := threaded_service_check f (submittedTasks input_file service)
  match write_data_to_output_excel service data input_file with
  | .ok out => .ok (out, out.nrows)
  | .error e => .error e

/-- One incoming request: mail id, body text and attachment sheet. -/
structure Mail where
  id : Nat
  body : String
  sheet : Sheet
deriving DecidableEq, Repr

/-- Observable mailbox effects of the top-level loop. -/
inductive Event where
  | sent : Nat → Event
  | deleted : Nat → Event
deriving DecidableEq, Repr

/-- The top-level mail loop of `process` (process.py lines 54-68), with the
external effects made explicit: `sendOk` tells whether SMTP delivery of the
status mail succeeds for a given mail id. Any exception (malformed request,
KeyError from annotation, delivery failure) propagates out of the
un-guarded `for` loop, so it aborts the whole run: the returned Bool is
`true` iff the loop ran to completion, and the event list records the
deliveries and deletions that actually happened. -/
def processMails (f : Ident → String → Bool) (sendOk : Nat → Bool) :
    List Mail → List Event × Bool
  | [] => ([], true)
  | m :: ms =>
    match _get_recipient_from_email m.body with
    | none => ([], false)
    | some _ =>
      match _get_request_type_from_email m.body with
      | none => ([], false)
      | some t =>
        match handle_data f m.sheet t with
        | .error _ => ([], false)
        | .ok _ =>
          if sendOk m.id then
            let rest := processMails f sendOk ms
            (Event.sent m.id :: Event.deleted m.id :: rest.1, rest.2)
          else ([], false)

/-- Marker occurrence at position `i` of a character list. -/
def markerAt (marker l : List Char) (i : Nat) : Prop :=
  startsWith marker (l.drop i) = true

instance (marker l : List Char) (i : Nat) : Decidable (markerAt marker l i) :=
  inferInstanceAs (Decidable (startsWith marker (l.drop i) = true))

lemma innerLookup_innerInsert (inner : InnerMap) (s' : String) (b : Bool) (s : String) :
    innerLookup (innerInsert inner s' b) s =
      if s = s' then some b else innerLookup inner s := by
  induction inner with
  | nil => simp [innerInsert, innerLookup]
  | cons p rest ih =>
    obtain ⟨ps, pb⟩ := p
    by_cases h1 : s' = ps
    · subst h1
      by_cases h2 : s = s' <;> simp [innerInsert, innerLookup, h2]
    · by_cases h2 : s = ps
      · subst h2
        have h3 : ¬s = s' := fun h => h1 h.symm
        simp [innerInsert, innerLookup, h1, h3]
      · simp [innerInsert, innerLookup, h1, h2, ih]

lemma length_innerInsert (inner : InnerMap) (s : String) (b : Bool) :
    (innerInsert inner s b).length =
      if innerLookup inner s = none then inner.length + 1 else inner.length := by
  induction inner with
  | nil => simp [innerInsert, innerLookup]
  | cons p rest ih =>
    obtain ⟨ps, pb⟩ := p
    by_cases h : s = ps
    · simp [innerInsert, innerLookup, h]
    · simp only [innerInsert, innerLookup, if_neg h, if_neg (fun hh => h hh)]
      simp only [List.length_cons, ih]
      split <;> simp

lemma dLookup_rmInsert (d : ResultMap) (a : Ident) (t : String) (v : Bool)
    (c : Ident) (s : String) :
    dLookup (rmInsert d a t v) c s =
      if c = a ∧ s = t then some v else dLookup d c s := by
  induction d with
  | nil =>
    by_cases h1 : c = a
    · subst h1
      by_cases h2 : s = t <;> simp [rmInsert, dLookup, innerLookup, h2]
    · simp [rmInsert, dLookup, h1]
  | cons p rest ih =>
    obtain ⟨pc, pinner⟩ := p
    by_cases h1 : a = pc
    · subst h1
      by_cases h2 : c = a
      · subst h2
        simp [rmInsert, dLookup, innerLookup_innerInsert]
      · simp [rmInsert, dLookup, h2]
    · by_cases h2 : c = pc
      · subst h2
        have h3 : ¬c = a := fun h => h1 h.symm
        have h4 : ¬(c = a ∧ s = t) := fun h => h3 h.1
        simp [rmInsert, dLookup, h1, h4]
      · simp [rmInsert, dLookup, h1, h2, ih]

lemma rmHasKey_rmInsert (d : ResultMap) (a : Ident) (t : String) (v : Bool) (c : Ident) :
    rmHasKey (rmInsert d a t v) c = (decide (c = a) || rmHasKey d c) := by
  induction d with
  | nil => simp [rmInsert, rmHasKey, eq_comm]
  | cons p rest ih =>
    obtain ⟨pc, pinner⟩ := p
    by_cases h1 : a = pc
    · subst h1
      by_cases h2 : c = a <;> simp [rmInsert, rmHasKey, h2]
    · simp only [rmInsert, if_neg h1, rmHasKey, List.any_cons] at ih ⊢
      rw [ih]
      cases h2 : decide (pc = c) <;> cases h3 : decide (c = a) <;> simp_all

lemma rmSize_cons (p : Ident × InnerMap) (rest : ResultMap) :
    rmSize (p :: rest) = p.2.length + rmSize rest := by
  simp [rmSize]

lemma rmSize_rmInsert (d : ResultMap) (c : Ident) (s : String) (b : Bool) :
    rmSize (rmInsert d c s b) =
      if dLookup d c s = none then rmSize d + 1 else rmSize d := by
  induction d with
  | nil => simp [rmInsert, rmSize, dLookup]
  | cons p rest ih =>
    obtain ⟨pc, pinner⟩ := p
    by_cases h1 : c = pc
    · subst h1
      simp [rmInsert, dLookup, rmSize_cons, length_innerInsert]
      by_cases h2 : innerLookup pinner s = none <;> simp +arith [h2]
    · simp [rmInsert, dLookup, h1, rmSize_cons, ih]
      by_cases h2 : dLookup rest c s = none <;> simp +arith [h2]

lemma dLookup_foldl (f : Ident → String → Bool) (l : List (Ident × String))
    (acc : ResultMap) (c : Ident) (s : String) :
    dLookup (l.foldl (fun d t => rmInsert d t.1 t.2 (f t.1 t.2)) acc) c s =
      if (c, s) ∈ l then some (f c s) else dLookup acc c s := by
  induction l generalizing acc with
  | nil => simp
  | cons t ts ih =>
    obtain ⟨tc, tsv⟩ := t
    simp only [List.foldl_cons, ih, dLookup_rmInsert, List.mem_cons]
    by_cases hts : (c, s) ∈ ts
    · simp [hts]
    · by_cases hh : (c, s) = (tc, tsv)
      · obtain ⟨h1, h2⟩ := Prod.mk.injEq .. ▸ hh
        subst h1; subst h2
        simp [hts]
      · have : ¬(c = tc ∧ s = tsv) := by
          intro ⟨h1, h2⟩; exact hh (by simp [h1, h2])
        simp [hts, hh, this]

lemma dLookup_buildMap (f : Ident → String → Bool) (l : List (Ident × String))
    (c : Ident) (s : String) :
    dLookup (buildMap f l) c s = if (c, s) ∈ l then some (f c s) else none := by
  simpa [buildMap] using dLookup_foldl f l [] c s

lemma rmHasKey_foldl (f : Ident → String → Bool) (l : List (Ident × String))
    (acc : ResultMap) (c : Ident) :
    rmHasKey (l.foldl (fun d t => rmInsert d t.1 t.2 (f t.1 t.2)) acc) c =
      (decide (c ∈ l.map Prod.fst) || rmHasKey acc c) := by
  induction l generalizing acc with
  | nil => simp
  | cons t ts ih =>
    simp only [List.foldl_cons, ih, rmHasKey_rmInsert, List.map_cons, List.mem_cons]
    by_cases hts : c ∈ ts.map Prod.fst
    · simp [hts]
    · by_cases hh : c = t.1 <;> simp [hts, hh]

lemma rmHasKey_buildMap (f : Ident → String → Bool) (l : List (Ident × String)) (c : Ident) :
    rmHasKey (buildMap f l) c = decide (c ∈ l.map Prod.fst) := by
  simpa [buildMap, rmHasKey] using rmHasKey_foldl f l [] c

lemma rmSize_foldl (f : Ident → String → Bool) :
    ∀ (l : List (Ident × String)) (acc : ResultMap), l.Nodup →
      (∀ p ∈ l, dLookup acc p.1 p.2 = none) →
      rmSize (l.foldl (fun d t => rmInsert d t.1 t.2 (f t.1 t.2)) acc) =
        rmSize acc + l.length := by
  intro l
  induction l with
  | nil => intro acc _ _; simp
  | cons t ts ih =>
    intro acc hnd hdis
    obtain ⟨tc, tsv⟩ := t
    have hnone : dLookup acc tc tsv = none := hdis (tc, tsv) (by simp)
    have hnotmem : (tc, tsv) ∉ ts := (List.nodup_cons.mp hnd).1
    have hdis' : ∀ p ∈ ts, dLookup (rmInsert acc tc tsv (f tc tsv)) p.1 p.2 = none := by
      intro p hp
      rw [dLookup_rmInsert]
      have hne : ¬(p.1 = tc ∧ p.2 = tsv) := by
        intro hpe
        have hpt : p = (tc, tsv) := Prod.ext hpe.1 hpe.2
        exact hnotmem (hpt ▸ hp)
      rw [if_neg hne]
      exact hdis p (by simp [hp])
    simp only [List.foldl_cons]
    rw [ih _ (List.nodup_cons.mp hnd).2 hdis', rmSize_rmInsert, if_pos hnone]
    simp +arith

lemma rmSize_buildMap (f : Ident → String → Bool) (l : List (Ident × String))
    (hnd : l.Nodup) : rmSize (buildMap f l) = l.length := by
  simpa [buildMap, rmSize] using rmSize_foldl f l [] hnd (by simp [dLookup])

lemma submittedTasks_eq_product (sh : Sheet) (service : List String) :
    submittedTasks sh service = (colA sh) ×ˢ (service.map normalizeService) := by
  show _ = (colA sh).product (service.map normalizeService)
  simp [submittedTasks, List.product, List.map_map, Function.comp_def]

lemma mem_submittedTasks (sh : Sheet) (service : List String) (c : Ident) (s : String) :
    (c, s) ∈ submittedTasks sh service ↔
      c ∈ colA sh ∧ s ∈ service.map normalizeService := by
  rw [submittedTasks_eq_product]
  exact List.mem_product

lemma length_submittedTasks (sh : Sheet) (service : List String) :
    (submittedTasks sh service).length = (colA sh).length * service.length := by
  rw [submittedTasks_eq_product, List.length_product, List.length_map]

lemma nodup_submittedTasks (sh : Sheet) (service : List String)
    (h1 : (colA sh).Nodup) (h2 : (service.map normalizeService).Nodup) :
    (submittedTasks sh service).Nodup := by
  rw [submittedTasks_eq_product]
  exact h1.product h2

lemma lookupCell_setCells (cells : List ((Nat × Nat) × String)) (r c : Nat) (v : String)
    (r' c' : Nat) :
    lookupCell (setCells cells r c v) r' c' =
      if r' = r ∧ c' = c then some v else lookupCell cells r' c' := by
  induction cells with
  | nil =>
    by_cases h : r' = r ∧ c' = c
    · obtain ⟨h1, h2⟩ := h
      subst h1; subst h2
      simp [setCells, lookupCell]
    · have hne : ¬((r', c') = (r, c)) := by
        intro hh
        exact h ⟨congrArg Prod.fst hh, congrArg Prod.snd hh⟩
      have hne' : ¬((r, c) = (r', c')) := fun hh => hne hh.symm
      simp [setCells, lookupCell, hne', h]
  | cons p rest ih =>
    obtain ⟨prc, pv⟩ := p
    by_cases h1 : prc = (r, c)
    · subst h1
      by_cases h2 : (r', c') = (r, c)
      · have hr : r' = r := congrArg Prod.fst h2
        have hc : c' = c := congrArg Prod.snd h2
        subst hr; subst hc
        simp [setCells, lookupCell]
      · have h3 : ¬(r' = r ∧ c' = c) := by
          intro ⟨a1, a2⟩
          exact h2 (by rw [a1, a2])
        have h4 : ¬(r = r' ∧ c = c') := fun hh => h3 ⟨hh.1.symm, hh.2.symm⟩
        simp [setCells, lookupCell, h2, h3, h4]
    · by_cases h2 : prc = (r', c')
      · subst h2
        have h3 : ¬(r' = r ∧ c' = c) := by
          intro ⟨a1, a2⟩
          exact h1 (by rw [a1, a2])
        have h4 : ¬(r = r' ∧ c = c') := fun hh => h3 ⟨hh.1.symm, hh.2.symm⟩
        simp [setCells, lookupCell, h1, h3, h4]
      · simp [setCells, lookupCell, h1, h2, ih]

lemma getCell_setCell (sh : Sheet) (r c : Nat) (v : String) (r' c' : Nat) :
    (sh.setCell r c v).getCell r' c' =
      if r' = r ∧ c' = c then some v else sh.getCell r' c' := by
  simp [Sheet.getCell, Sheet.setCell, lookupCell_setCells]

lemma nrows_setCell (sh : Sheet) (r c : Nat) (v : String) :
    (sh.setCell r c v).nrows = max sh.nrows r := rfl

lemma ncols_setCell (sh : Sheet) (r c : Nat) (v : String) :
    (sh.setCell r c v).ncols = max sh.ncols c := rfl

lemma mem_dataRows (sh : Sheet) (r : Nat) :
    r ∈ dataRows sh ↔ 2 ≤ r ∧ r ≤ sh.nrows := by
  simp only [dataRows, List.mem_range']
  constructor
  · rintro ⟨i, hi, rfl⟩
    omega
  · intro h
    exact ⟨r - 2, by omega, by omega⟩

lemma nodup_dataRows (sh : Sheet) : (dataRows sh).Nodup :=
  List.nodup_range' 2 (sh.nrows - 1)

lemma writeRows_frame (data : ResultMap) (sN : String) (col : Nat) :
    ∀ (rows : List Nat) (sh out : Sheet), writeRows data sN col rows sh = .ok out →
      ∀ r' c', (c' ≠ col ∨ r' ∉ rows) → out.getCell r' c' = sh.getCell r' c' := by
  intro rows
  induction rows with
  | nil =>
    intro sh out h r' c' _
    simp only [writeRows, Except.ok.injEq] at h
    rw [← h]
  | cons r rs ih =>
    intro sh out h r' c' hcond
    cases hd : dLookup data (sh.getCell r 1) sN with
    | none => simp [writeRows, hd] at h
    | some b =>
      simp only [writeRows, hd] at h
      have h2 : c' ≠ col ∨ r' ∉ rs := by
        rcases hcond with hc | hc
        · exact Or.inl hc
        · exact Or.inr fun hm => hc (List.mem_cons_of_mem _ hm)
      have h3 : ¬(r' = r ∧ c' = col) := by
        rintro ⟨rfl, rfl⟩
        rcases hcond with hc | hc
        · exact hc rfl
        · exact hc (List.mem_cons_self _ _)
      rw [ih _ _ h r' c' h2, getCell_setCell, if_neg h3]

lemma writeRows_dims (data : ResultMap) (sN : String) (col : Nat) :
    ∀ (rows : List Nat) (sh out : Sheet), writeRows data sN col rows sh = .ok out →
      (∀ r ∈ rows, r ≤ sh.nrows) → col ≤ sh.ncols →
      out.nrows = sh.nrows ∧ out.ncols = sh.ncols := by
  intro rows
  induction rows with
  | nil =>
    intro sh out h _ _
    simp only [writeRows, Except.ok.injEq] at h
    rw [← h]
    exact ⟨rfl, rfl⟩
  | cons r rs ih =>
    intro sh out h hrows hcol
    cases hd : dLookup data (sh.getCell r 1) sN with
    | none => simp [writeRows, hd] at h
    | some b =>
      simp only [writeRows, hd] at h
      have hr : r ≤ sh.nrows := hrows r (List.mem_cons_self _ _)
      have e1 : (sh.setCell r col (statusText b)).nrows = sh.nrows := by
        rw [nrows_setCell]; omega
      have e2 : (sh.setCell r col (statusText b)).ncols = sh.ncols := by
        rw [ncols_setCell]; omega
      have := ih _ _ h (fun x hx => by rw [e1]; exact hrows x (List.mem_cons_of_mem _ hx))
        (by rw [e2]; exact hcol)
      rw [e1, e2] at this
      exact this

lemma writeRows_values (data : ResultMap) (sN : String) (col : Nat) :
    ∀ (rows : List Nat) (sh out : Sheet), writeRows data sN col rows sh = .ok out →
      col ≠ 1 → rows.Nodup →
      ∀ r ∈ rows, ∃ b, dLookup data (sh.getCell r 1) sN = some b ∧
        out.getCell r col = some (statusText b) := by
  intro rows
  induction rows with
  | nil => intro sh out _ _ _ r hr; cases hr
  | cons r rs ih =>
    intro sh out h hcol hnd r' hr'
    cases hd : dLookup data (sh.getCell r 1) sN with
    | none => simp [writeRows, hd] at h
    | some b =>
      simp only [writeRows, hd] at h
      rcases List.mem_cons.mp hr' with rfl | hmem
      · refine ⟨b, hd, ?_⟩
        have hnotmem : r' ∉ rs := (List.nodup_cons.mp hnd).1
        rw [writeRows_frame data sN col rs _ _ h r' col (Or.inr hnotmem),
          getCell_setCell, if_pos ⟨rfl, rfl⟩]
      · have hcell : (sh.setCell r col (statusText b)).getCell r' 1 = sh.getCell r' 1 := by
          rw [getCell_setCell, if_neg]
          rintro ⟨rfl, rfl⟩
          exact hcol rfl
        have := ih _ _ h hcol (List.nodup_cons.mp hnd).2 r' hmem
        rwa [hcell] at this

lemma writeRows_exists (data : ResultMap) (sN : String) (col : Nat) :
    ∀ (rows : List Nat) (sh : Sheet), col ≠ 1 →
      (∀ r ∈ rows, (dLookup data (sh.getCell r 1) sN).isSome) →
      ∃ out, writeRows data sN col rows sh = .ok out := by
  intro rows
  induction rows with
  | nil => intro sh _ _; exact ⟨sh, rfl⟩
  | cons r rs ih =>
    intro sh hcol hcomp
    have hsome := hcomp r (List.mem_cons_self _ _)
    cases hd : dLookup data (sh.getCell r 1) sN with
    | none => rw [hd] at hsome; cases hsome
    | some b =>
      have hcomp' : ∀ x ∈ rs,
          (dLookup data ((sh.setCell r col (statusText b)).getCell x 1) sN).isSome := by
        intro x hx
        have hcell : (sh.setCell r col (statusText b)).getCell x 1 = sh.getCell x 1 := by
          rw [getCell_setCell, if_neg]
          rintro ⟨rfl, rfl⟩
          exact hcol rfl
        rw [hcell]
        exact hcomp x (List.mem_cons_of_mem _ hx)
      obtain ⟨out, hout⟩ := ih (sh.setCell r col (statusText b)) hcol hcomp'
      exact ⟨out, by simp only [writeRows, hd]; exact hout⟩

lemma writeService_ok (data : ResultMap) (s : String) (col : Nat) (sh out : Sheet)
    (h : writeService data s col sh = .ok out) (hcol : 2 ≤ col) (hrows : 1 ≤ sh.nrows) :
    out.nrows = sh.nrows ∧ out.ncols = max sh.ncols col ∧
    out.getCell 1 col = some s ∧
    (∀ r, 2 ≤ r → r ≤ sh.nrows → ∃ b,
        dLookup data (sh.getCell r 1) (normalizeService s) = some b ∧
        out.getCell r col = some (statusText b)) ∧
    (∀ r' c', c' ≠ col ∨ (r' ≠ 1 ∧ ¬(2 ≤ r' ∧ r' ≤ sh.nrows)) →
        out.getCell r' c' = sh.getCell r' c') := by
  have hcol1 : col ≠ 1 := by omega
  rw [writeService] at h
  set sh1 := sh.setCell 1 col s with hsh1
  have hn1 : sh1.nrows = sh.nrows := by
    rw [hsh1, nrows_setCell]; omega
  have hc1 : sh1.ncols = max sh.ncols col := by
    rw [hsh1, ncols_setCell]
  have hmem : ∀ r, r ∈ dataRows sh1 ↔ 2 ≤ r ∧ r ≤ sh.nrows := by
    intro r
    rw [mem_dataRows, hn1]
  have hcell1 : ∀ r, r ≠ 1 → sh1.getCell r 1 = sh.getCell r 1 := by
    intro r hr
    rw [hsh1, getCell_setCell, if_neg]
    rintro ⟨rfl, rfl⟩
    exact hr rfl
  obtain ⟨hdn, hdc⟩ := writeRows_dims data (normalizeService s) col (dataRows sh1) sh1 out h
    (fun x hx => ((hmem x).mp hx).2.trans_eq hn1.symm)
    (hc1 ▸ Nat.le_max_right sh.ncols col)
  refine ⟨hdn.trans hn1, hdc.trans hc1, ?_, ?_, ?_⟩
  · have h1mem : (1 : Nat) ∉ dataRows sh1 := by
      rw [hmem]; omega
    rw [writeRows_frame data (normalizeService s) col (dataRows sh1) sh1 out h 1 col
      (Or.inr h1mem), hsh1, getCell_setCell, if_pos ⟨rfl, rfl⟩]
  · intro r hr2 hrn
    have hrmem : r ∈ dataRows sh1 := (hmem r).mpr ⟨hr2, hrn⟩
    obtain ⟨b, hb, hcell⟩ := writeRows_values data (normalizeService s) col (dataRows sh1)
      sh1 out h hcol1 (nodup_dataRows sh1) r hrmem
    rw [hcell1 r (by omega)] at hb
    exact ⟨b, hb, hcell⟩
  · intro r' c' hcond
    have hcond' : c' ≠ col ∨ r' ∉ dataRows sh1 := by
      rcases hcond with hc | ⟨_, hc⟩
      · exact Or.inl hc
      · exact Or.inr (by rw [hmem]; exact hc)
    rw [writeRows_frame data (normalizeService s) col (dataRows sh1) sh1 out h r' c' hcond',
      hsh1, getCell_setCell, if_neg]
    rintro ⟨rfl, rfl⟩
    rcases hcond with hc | ⟨hc, _⟩
    · exact hc rfl
    · exact hc rfl

lemma writeService_exists (data : ResultMap) (s : String) (col : Nat) (sh : Sheet)
    (hcol : 2 ≤ col) (hrows : 1 ≤ sh.nrows)
    (hcomp : ∀ r, 2 ≤ r → r ≤ sh.nrows →
      (dLookup data (sh.getCell r 1) (normalizeService s)).isSome) :
    ∃ out, writeService data s col sh = .ok out := by
  have hcol1 : col ≠ 1 := by omega
  rw [writeService]
  set sh1 := sh.setCell 1 col s with hsh1
  have hn1 : sh1.nrows = sh.nrows := by
    rw [hsh1, nrows_setCell]; omega
  apply writeRows_exists data (normalizeService s) col (dataRows sh1) sh1 hcol1
  intro r hr
  obtain ⟨hr2, hrn⟩ := (mem_dataRows sh1 r).mp hr
  have hcell1 : sh1.getCell r 1 = sh.getCell r 1 := by
    rw [hsh1, getCell_setCell, if_neg]
    rintro ⟨rfl, rfl⟩
    omega
  rw [hcell1]
  exact hcomp r hr2 (hrn.trans_eq hn1)

lemma writeCols_ok (data : ResultMap) :
    ∀ (svcs : List String) (sh out : Sheet),
      writeCols data svcs (sh.ncols + 1) sh = .ok out → 1 ≤ sh.ncols → 1 ≤ sh.nrows →
      out.nrows = sh.nrows ∧ out.ncols = sh.ncols + svcs.length ∧
      (∀ i, (hi : i < svcs.length) →
        out.getCell 1 (sh.ncols + 1 + i) = some svcs[i]) ∧
      (∀ r, 2 ≤ r → r ≤ sh.nrows → ∀ i, (hi : i < svcs.length) → ∃ b,
          dLookup data (sh.getCell r 1) (normalizeService svcs[i]) = some b ∧
          out.getCell r (sh.ncols + 1 + i) = some (statusText b)) ∧
      (∀ r c, (c ≤ sh.ncols ∨ sh.ncols + svcs.length < c ∨
          (r ≠ 1 ∧ ¬(2 ≤ r ∧ r ≤ sh.nrows))) →
          out.getCell r c = sh.getCell r c) := by
  intro svcs
  induction svcs with
  | nil =>
    intro sh out h _ _
    simp only [writeCols, Except.ok.injEq] at h
    rw [← h]
    refine ⟨rfl, by simp, ?_, ?_, fun r c _ => rfl⟩
    · intro i hi
      simp at hi
    · intro r _ _ i hi
      simp at hi
  | cons s rest ih =>
    intro sh out h hc hr
    cases hws : writeService data s (sh.ncols + 1) sh with
    | error e => simp [writeCols, hws] at h
    | ok sh1 =>
      simp only [writeCols, hws] at h
      obtain ⟨w_nr, w_nc, w_hd, w_val, w_fr⟩ :=
        writeService_ok data s (sh.ncols + 1) sh sh1 hws (by omega) hr
      have hc1 : sh1.ncols = sh.ncols + 1 := by rw [w_nc]; omega
      have h' : writeCols data rest (sh1.ncols + 1) sh1 = .ok out := by
        rw [hc1]; exact h
      obtain ⟨i_nr, i_nc, i_hd, i_val, i_fr⟩ :=
        ih sh1 out h' (by rw [hc1]; omega) (by rw [w_nr]; exact hr)
      refine ⟨i_nr.trans w_nr, ?_, ?_, ?_, ?_⟩
      · rw [i_nc, hc1, List.length_cons]
        omega
      · intro i hi
        match i with
        | 0 =>
          have hfr := i_fr 1 (sh.ncols + 1) (Or.inl (by rw [hc1]))
          rw [Nat.add_zero, hfr, w_hd]
          simp
        | j + 1 =>
          have hj : j < rest.length := by
            simp only [List.length_cons] at hi
            omega
          have hpos : sh.ncols + 1 + (j + 1) = sh1.ncols + 1 + j := by
            rw [hc1]; omega
          rw [hpos, i_hd j hj]
          simp
      · intro r h2 hn i hi
        match i with
        | 0 =>
          obtain ⟨b, hb, hcell⟩ := w_val r h2 hn
          have hfr := i_fr r (sh.ncols + 1) (Or.inl (by rw [hc1]))
          refine ⟨b, by simpa using hb, ?_⟩
          rw [Nat.add_zero, hfr]
          exact hcell
        | j + 1 =>
          have hj : j < rest.length := by
            simp only [List.length_cons] at hi
            omega
          obtain ⟨b, hb, hcell⟩ := i_val r h2 (by rw [w_nr]; exact hn) j hj
          have hcell1 : sh1.getCell r 1 = sh.getCell r 1 :=
            w_fr r 1 (Or.inl (by omega))
          rw [hcell1] at hb
          have hpos : sh.ncols + 1 + (j + 1) = sh1.ncols + 1 + j := by
            rw [hc1]; omega
          rw [hpos]
          exact ⟨b, by simpa using hb, hcell⟩
      · intro r c hcond
        have hcond1 : c ≤ sh1.ncols ∨ sh1.ncols + rest.length < c ∨
            (r ≠ 1 ∧ ¬(2 ≤ r ∧ r ≤ sh1.nrows)) := by
          rcases hcond with hcc | hcc | hcc
          · exact Or.inl (by rw [hc1]; omega)
          · refine Or.inr (Or.inl ?_)
            rw [hc1]
            simp only [List.length_cons] at hcc
            omega
          · exact Or.inr (Or.inr (by rw [w_nr]; exact hcc))
        rw [i_fr r c hcond1]
        apply w_fr
        rcases hcond with hcc | hcc | hcc
        · exact Or.inl (by omega)
        · refine Or.inl ?_
          simp only [List.length_cons] at hcc
          omega
        · exact Or.inr hcc

lemma writeCols_exists (data : ResultMap) :
    ∀ (svcs : List String) (sh : Sheet), 1 ≤ sh.ncols → 1 ≤ sh.nrows →
      (∀ r, 2 ≤ r → r ≤ sh.nrows → ∀ s ∈ svcs,
        (dLookup data (sh.getCell r 1) (normalizeService s)).isSome) →
      ∃ out, writeCols data svcs (sh.ncols + 1) sh = .ok out := by
  intro svcs
  induction svcs with
  | nil => intro sh _ _ _; exact ⟨sh, rfl⟩
  | cons s rest ih =>
    intro sh hc hr hcomp
    obtain ⟨sh1, hws⟩ := writeService_exists data s (sh.ncols + 1) sh (by omega) hr
      (fun r h2 hn => hcomp r h2 hn s (List.mem_cons_self _ _))
    obtain ⟨w_nr, w_nc, _, _, w_fr⟩ :=
      writeService_ok data s (sh.ncols + 1) sh sh1 hws (by omega) hr
    have hc1 : sh1.ncols = sh.ncols + 1 := by rw [w_nc]; omega
    have hcomp1 : ∀ r, 2 ≤ r → r ≤ sh1.nrows → ∀ t ∈ rest,
        (dLookup data (sh1.getCell r 1) (normalizeService t)).isSome := by
      intro r h2 hn t ht
      have hcell : sh1.getCell r 1 = sh.getCell r 1 := w_fr r 1 (Or.inl (by omega))
      rw [hcell]
      exact hcomp r h2 (by rw [← w_nr]; exact hn) t (List.mem_cons_of_mem _ ht)
    obtain ⟨out, hout⟩ := ih sh1 (by rw [hc1]; omega) (by rw [w_nr]; exact hr) hcomp1
    refine ⟨out, ?_⟩
    simp only [writeCols, hws]
    rw [hc1] at hout
    exact hout

lemma exceptOkOrErr {ε α : Type} (x : Except ε α) :
    (∃ a, x = .ok a) ∨ (∃ e, x = .error e) := by
  cases x with
  | ok a => exact Or.inl ⟨a, rfl⟩
  | error e => exact Or.inr ⟨e, rfl⟩

lemma startsWith_append (m rest : List Char) : startsWith m (m ++ rest) = true := by
  induction m with
  | nil => rfl
  | cons c ms ih => simp [startsWith, ih]

lemma takeWhile_all_append (good : Char → Bool) (xs : List Char) (y : Char) (ys : List Char)
    (hall : ∀ x ∈ xs, good x = true) (hy : good y = false) :
    (xs ++ y :: ys).takeWhile good = xs := by
  induction xs with
  | nil => simp [List.takeWhile_cons, hy]
  | cons x xs' ih =>
    have hx : good x = true := hall x (List.mem_cons_self _ _)
    rw [List.cons_append, List.takeWhile_cons, if_pos hx,
      ih (fun z hz => hall z (List.mem_cons_of_mem _ hz))]

lemma findCapture_cons (marker : List Char) (good : Char → Bool) (c : Char) (cs : List Char) :
    findCapture marker good (c :: cs) =
      if startsWith marker (c :: cs) then
        (if (((c :: cs).drop marker.length).takeWhile good).isEmpty then
          findCapture marker good cs
        else some (((c :: cs).drop marker.length).takeWhile good))
      else findCapture marker good cs := rfl

lemma findCapture_spec (marker : List Char) (good : Char → Bool) :
    ∀ (pre rest : List Char), marker ≠ [] →
      (∀ i, i < pre.length → startsWith marker ((pre ++ (marker ++ rest)).drop i) = false) →
      (rest.takeWhile good).isEmpty = false →
      findCapture marker good (pre ++ (marker ++ rest)) = some (rest.takeWhile good) := by
  intro pre
  induction pre with
  | nil =>
    intro rest hm _ hcap
    obtain ⟨c, ms, rfl⟩ : ∃ c ms, marker = c :: ms := by
      cases marker with
      | nil => exact absurd rfl hm
      | cons c ms => exact ⟨c, ms, rfl⟩
    have hsw : startsWith (c :: ms) (c :: (ms ++ rest)) = true := by
      rw [← List.cons_append]
      exact startsWith_append (c :: ms) rest
    have hdrop : (c :: (ms ++ rest)).drop (c :: ms).length = rest := by
      rw [← List.cons_append]
      exact List.drop_left (c :: ms) rest
    simp only [List.nil_append, List.cons_append]
    rw [findCapture_cons, if_pos hsw, hdrop]
    simp [hcap]
  | cons p pre' ih =>
    intro rest hm hocc hcap
    have h0 := hocc 0 (by simp)
    simp only [List.cons_append, List.drop_zero] at h0
    simp only [List.cons_append]
    rw [findCapture_cons, if_neg (by simp [h0])]
    apply ih rest hm _ hcap
    intro i hi
    have hstep := hocc (i + 1) (by simp; omega)
    simp only [List.cons_append, List.drop_succ_cons] at hstep
    exact hstep

/-- Sample input workbook: header row plus two data rows with distinct CPRs. -/
def sampleSheet : Sheet :=
  ⟨3, 1, [((1, 1), "CPR"), ((2, 1), "0101011234"), ((3, 1), "0202024567")]⟩

/-- Sample fully populated result dictionary for `sampleSheet` and the
Digital Post service: first CPR registered, second not. -/
def sampleData : ResultMap :=
  [(some "0101011234", [("digitalpost", true)]),
   (some "0202024567", [("digitalpost", false)])]

/-- The annotated sheet produced from `sampleSheet` and `sampleData`. -/
def sampleOut : Sheet :=
  ⟨3, 2, [((1, 1), "CPR"), ((2, 1), "0101011234"), ((3, 1), "0202024567"),
    ((1, 2), "Digital Post"), ((2, 2), "Tilmeldt"), ((3, 2), "Ikke tilmeldt")]⟩

/-- The sheet produced by annotating `sampleOut` a second time. -/
def sampleOut2 : Sheet :=
  ⟨3, 3, [((1, 1), "CPR"), ((2, 1), "0101011234"), ((3, 1), "0202024567"),
    ((1, 2), "Digital Post"), ((2, 2), "Tilmeldt"), ((3, 2), "Ikke tilmeldt"),
    ((1, 3), "Digital Post"), ((2, 3), "Tilmeldt"), ((3, 3), "Ikke tilmeldt")]⟩

/-- A workbook consisting of only the header row. -/
def headerSheet : Sheet := ⟨1, 1, [((1, 1), "CPR")]⟩

/-- A workbook whose two data rows hold the same CPR. -/
def dupSheet : Sheet :=
  ⟨3, 1, [((1, 1), "CPR"), ((2, 1), "1"), ((3, 1), "1")]⟩

/-- A sample deterministic lookup: registered iff the CPR is the first sample one. -/
def sampleLookup : Ident → String → Bool :=
  fun c _ => decide (c = some "0101011234")

/-- A request body containing both recognizable markers. -/
def goodBody : String :=
  "contact: mailto:jane@example.com\" hello Digital Post eller NemSMS<br>Begge<br>"

/-- A processable request mail. -/
def goodMail : Mail := ⟨2, goodBody, headerSheet⟩

/-- A malformed request mail: no marker matches in the body. -/
def badMail : Mail := ⟨1, "hello", headerSheet⟩

/-- Claim C2: for every input spreadsheet, requested service list and fully
populated ResultMap, the annotator succeeds and produces an output whose
column count is the input column count plus the number of requested
services, with one header cell per service holding the requested service
name in request order, and for every data row the new cell for a service is
the human-readable status text of the looked-up boolean ("Tilmeldt" for
true, "Ikke tilmeldt" for false — the code's rendering of
registered / not registered), with row order preserved: row r's new cells
are computed from row r's identifier. -/
theorem C2_annotator_output (service : List String) (data : ResultMap) (sheet : Sheet)
    (hc : 1 ≤ sheet.ncols) (hr : 1 ≤ sheet.nrows)
    (hcomp : ∀ r, 2 ≤ r → r ≤ sheet.nrows → ∀ s ∈ service,
      (dLookup data (sheet.getCell r 1) (normalizeService s)).isSome) :
    ∃ out, write_data_to_output_excel service data sheet = .ok out ∧
      out.ncols = sheet.ncols + service.length ∧
      (∀ i, (hi : i < service.length) →
        out.getCell 1 (sheet.ncols + 1 + i) = some service[i]) ∧
      (∀ r, 2 ≤ r → r ≤ sheet.nrows → ∀ i, (hi : i < service.length) → ∃ b,
        dLookup data (sheet.getCell r 1) (normalizeService service[i]) = some b ∧
        out.getCell r (sheet.ncols + 1 + i) = some (statusText b)) := by
  obtain ⟨out, hout⟩ := writeCols_exists data service sheet hc hr hcomp
  obtain ⟨_, hnc, hhd, hval, _⟩ := writeCols_ok data service sheet out hout hc hr
  exact ⟨out, hout, hnc, hhd, hval⟩

/-- Witness for C2 at a concrete two-data-row sheet with a matching result
map for the Digital Post service. -/
theorem C2_annotator_output_witness :
    (1 ≤ sampleSheet.ncols ∧ 1 ≤ sampleSheet.nrows) ∧
    ∃ out, write_data_to_output_excel ["Digital Post"] sampleData sampleSheet = .ok out ∧
      out.ncols = sampleSheet.ncols + 1 ∧
      (∀ i, (hi : i < (["Digital Post"] : List String).length) →
        out.getCell 1 (sampleSheet.ncols + 1 + i) = some (["Digital Post"] : List String)[i]) ∧
      (∀ r, 2 ≤ r → r ≤ sampleSheet.nrows → ∀ i,
        (hi : i < (["Digital Post"] : List String).length) → ∃ b,
        dLookup sampleData (sampleSheet.getCell r 1)
          (normalizeService (["Digital Post"] : List String)[i]) = some b ∧
        out.getCell r (sampleSheet.ncols + 1 + i) = some (statusText b)) := by
  have hcomp : ∀ r, 2 ≤ r → r ≤ sampleSheet.nrows → ∀ s ∈ (["Digital Post"] : List String),
      (dLookup sampleData (sampleSheet.getCell r 1) (normalizeService s)).isSome := by
    intro r h2 h3 s hs
    have h3' : r ≤ 3 := h3
    rcases List.mem_singleton.mp hs with rfl
    interval_cases r
    · decide
    · decide
  exact ⟨⟨by decide, by decide⟩, C2_annotator_output ["Digital Post"] sampleData sampleSheet
    (by decide) (by decide) hcomp⟩

/-- Claim C4: if some data row's identifier (for some requested service) is
absent from the ResultMap, the annotator reports an error (the KeyError)
instead of writing a default status; if every row's identifier and
requested service are present, it succeeds. -/
theorem C4_missing_key (service : List String) (data : ResultMap) (sheet : Sheet)
    (hc : 1 ≤ sheet.ncols) (hr : 1 ≤ sheet.nrows) :
    ((∃ r s, 2 ≤ r ∧ r ≤ sheet.nrows ∧ s ∈ service ∧
        dLookup data (sheet.getCell r 1) (normalizeService s) = none) →
      ∃ msg, write_data_to_output_excel service data sheet = .error msg) ∧
    ((∀ r, 2 ≤ r → r ≤ sheet.nrows → ∀ s ∈ service,
        (dLookup data (sheet.getCell r 1) (normalizeService s)).isSome) →
      ∃ out, write_data_to_output_excel service data sheet = .ok out) := by
  constructor
  · rintro ⟨r, s, h2, h3, hs, hnone⟩
    rcases exceptOkOrErr (write_data_to_output_excel service data sheet) with
      ⟨out, hout⟩ | ⟨e, he⟩
    · exfalso
      obtain ⟨i, hi, hsi⟩ := List.mem_iff_getElem.mp hs
      obtain ⟨_, _, _, hval, _⟩ := writeCols_ok data service sheet out hout hc hr
      obtain ⟨b, hb, _⟩ := hval r h2 h3 i hi
      rw [hsi] at hb
      rw [hb] at hnone
      cases hnone
    · exact ⟨e, he⟩
  · intro hcomp
    exact writeCols_exists data service sheet hc hr hcomp

/-- Witness for C4: with an empty result map the annotator errors on the
sample sheet; with the matching map it succeeds. -/
theorem C4_missing_key_witness :
    (1 ≤ sampleSheet.ncols ∧ 1 ≤ sampleSheet.nrows) ∧
    (∃ msg, write_data_to_output_excel ["Digital Post"] [] sampleSheet = .error msg) := by
  refine ⟨⟨by decide, by decide⟩, ?_⟩
  refine (C4_missing_key ["Digital Post"] [] sampleSheet (by decide) (by decide)).1 ?_
  exact ⟨2, "Digital Post", by decide, by decide, by decide, by decide⟩

/-- Claim C5: a successful annotation leaves every cell of the original
columns (1..input max_column, all rows) unchanged, and appends the service
columns strictly after the last existing column in request order. -/
theorem C5_no_mutation (service : List String) (data : ResultMap) (sheet out : Sheet)
    (hc : 1 ≤ sheet.ncols) (hr : 1 ≤ sheet.nrows)
    (hout : write_data_to_output_excel service data sheet = .ok out) :
    (∀ r c, 1 ≤ c → c ≤ sheet.ncols → out.getCell r c = sheet.getCell r c) ∧
    (∀ i, (hi : i < service.length) →
      out.getCell 1 (sheet.ncols + 1 + i) = some service[i]) := by
  obtain ⟨_, _, hhd, _, hfr⟩ := writeCols_ok data service sheet out hout hc hr
  exact ⟨fun r c _ h2 => hfr r c (Or.inl h2), hhd⟩

/-- Witness for C5 on the sample run: the identifier cell of row 2 is
untouched and the new header lands at column 2. -/
theorem C5_no_mutation_witness :
    (write_data_to_output_excel ["Digital Post"] sampleData sampleSheet = .ok sampleOut) ∧
    sampleOut.getCell 2 1 = sampleSheet.getCell 2 1 ∧
    sampleOut.getCell 1 2 = some "Digital Post" := by
  have h := C5_no_mutation ["Digital Post"] sampleData sampleSheet sampleOut
    (by decide) (by decide) rfl
  exact ⟨rfl, h.1 2 1 (by decide) (by decide), h.2 0 (by decide)⟩

/-- Counterexample to C6 as stated: annotating `sampleOut` (the first run's
output) a second time with the same service list and the same matching
ResultMap does not reproduce `sampleOut`; it succeeds with a three-column
sheet, while `sampleOut` has two columns. -/
theorem C6_counterexample :
    (write_data_to_output_excel ["Digital Post"] sampleData sampleSheet = .ok sampleOut) ∧
    (write_data_to_output_excel ["Digital Post"] sampleData sampleOut).toOption.map Sheet.ncols
      = some 3 ∧
    sampleOut.ncols = 2 := ⟨rfl, rfl, rfl⟩

/-- Claim C6 (amended): a second annotator run on the first run's output is
not identical to it; instead it leaves every cell of the first output's
columns unchanged and appends the requested service columns once more, so
the column count grows by the number of services again. -/
theorem C6_second_run (service : List String) (data : ResultMap) (sheet out1 out2 : Sheet)
    (hc : 1 ≤ sheet.ncols) (hr : 1 ≤ sheet.nrows)
    (h1 : write_data_to_output_excel service data sheet = .ok out1)
    (h2 : write_data_to_output_excel service data out1 = .ok out2) :
    out2.ncols = out1.ncols + service.length ∧
    (∀ r c, c ≤ out1.ncols → out2.getCell r c = out1.getCell r c) := by
  obtain ⟨o1_nr, o1_nc, _, _, _⟩ := writeCols_ok data service sheet out1 h1 hc hr
  have hc1 : 1 ≤ out1.ncols := by omega
  have hr1 : 1 ≤ out1.nrows := by rw [o1_nr]; exact hr
  obtain ⟨_, o2_nc, _, _, o2_fr⟩ := writeCols_ok data service out1 out2 h2 hc1 hr1
  exact ⟨o2_nc, fun r c hle => o2_fr r c (Or.inl hle)⟩

/-- Witness for the amended C6 on the sample run. -/
theorem C6_second_run_witness :
    (write_data_to_output_excel ["Digital Post"] sampleData sampleSheet = .ok sampleOut) ∧
    (write_data_to_output_excel ["Digital Post"] sampleData sampleOut = .ok sampleOut2) ∧
    sampleOut2.ncols = sampleOut.ncols + 1 ∧
    sampleOut2.getCell 2 2 = sampleOut.getCell 2 2 := by
  have h := C6_second_run ["Digital Post"] sampleData sampleSheet sampleOut sampleOut2
    (by decide) (by decide) rfl rfl
  exact ⟨rfl, rfl, h.1, h.2 2 2 (by decide)⟩

/-- Counterexample to C1 as stated: a sheet whose two data rows hold the
same identifier, with the non-empty service set [Digital Post] and a valid
completion order, yields a ResultMap with 1 entry instead of
rows × services = 2: the dictionary keyed by identifier collapses
duplicate rows. -/
theorem C1_counterexample :
    colA dupSheet ≠ [] ∧
    (submittedTasks dupSheet ["Digital Post"]).Perm (submittedTasks dupSheet ["Digital Post"]) ∧
    rmSize (threaded_service_check (fun _ _ => true)
      (submittedTasks dupSheet ["Digital Post"])) = 1 ∧
    (colA dupSheet).length * (["Digital Post"] : List String).length = 2 :=
  ⟨by decide, List.Perm.refl _, by decide, by decide⟩

/-- Claim C1 (amended): for every sheet with a non-empty identifier column
of pairwise distinct identifiers and every non-empty duplicate-free
service set, every completion order of the scheduler yields a ResultMap
with exactly rows × services entries, containing the looked-up boolean for
every (identifier, service) pair and nothing else. -/
theorem C1_cross_product (f : Ident → String → Bool) (sheet : Sheet)
    (service : List String) (completion : List (Ident × String))
    (_hne1 : colA sheet ≠ []) (_hne2 : service ≠ [])
    (hnd1 : (colA sheet).Nodup) (hnd2 : (service.map normalizeService).Nodup)
    (hperm : completion.Perm (submittedTasks sheet service)) :
    rmSize (threaded_service_check f completion) = (colA sheet).length * service.length ∧
    (∀ c ∈ colA sheet, ∀ s ∈ service,
      dLookup (threaded_service_check f completion) c (normalizeService s)
        = some (f c (normalizeService s))) ∧
    (∀ c s, (dLookup (threaded_service_check f completion) c s).isSome →
      (c, s) ∈ submittedTasks sheet service) := by
  have htnd : (submittedTasks sheet service).Nodup := nodup_submittedTasks sheet service hnd1 hnd2
  have hcnd : completion.Nodup := hperm.symm.nodup htnd
  refine ⟨?_, ?_, ?_⟩
  · rw [threaded_service_check, rmSize_buildMap f completion hcnd, hperm.length_eq,
      length_submittedTasks]
  · intro c hcm s hsm
    rw [threaded_service_check, dLookup_buildMap, if_pos]
    rw [hperm.mem_iff, mem_submittedTasks]
    exact ⟨hcm, List.mem_map_of_mem normalizeService hsm⟩
  · intro c s hsome
    rw [threaded_service_check, dLookup_buildMap] at hsome
    by_cases hmem : (c, s) ∈ completion
    · exact hperm.mem_iff.mp hmem
    · rw [if_neg hmem] at hsome
      cases hsome

/-- Witness for the amended C1: the two-distinct-row sample sheet with the
Digital Post service and the reversed completion order. -/
theorem C1_cross_product_witness :
    (colA sampleSheet ≠ [] ∧ (colA sampleSheet).Nodup ∧
      ((submittedTasks sampleSheet ["Digital Post"]).reverse).Perm
        (submittedTasks sampleSheet ["Digital Post"])) ∧
    rmSize (threaded_service_check sampleLookup
        ((submittedTasks sampleSheet ["Digital Post"]).reverse))
      = (colA sampleSheet).length * (["Digital Post"] : List String).length := by
  refine ⟨⟨by decide, by decide, by decide⟩, ?_⟩
  exact (C1_cross_product sampleLookup sampleSheet ["Digital Post"]
    ((submittedTasks sampleSheet ["Digital Post"]).reverse)
    (by decide) (by decide) (by decide) (by decide) (by decide)).1

/-- Claim C10: for every sheet, service list, deterministic lookup function
and completion order, the concurrent scheduler and the sequential one
return equal ResultMaps (Python dict equality: same keys, same values). -/
theorem C10_threaded_eq_linear (f : Ident → String → Bool) (sheet : Sheet)
    (service : List String) (completion : List (Ident × String))
    (hperm : completion.Perm (submittedTasks sheet service)) :
    rmEquiv (threaded_service_check f completion)
      (linear_service_check f sheet service) := by
  constructor
  · intro c
    simp only [threaded_service_check, linear_service_check, rmHasKey_buildMap]
    rw [decide_eq_decide]
    exact (hperm.map Prod.fst).mem_iff
  · intro c s
    simp only [threaded_service_check, linear_service_check, dLookup_buildMap]
    simp only [hperm.mem_iff]

/-- Witness for C10: reversed completion order against the sequential run
on the sample sheet with both services. -/
theorem C10_threaded_eq_linear_witness :
    ((submittedTasks sampleSheet ["Digital Post", "NemSMS"]).reverse).Perm
      (submittedTasks sampleSheet ["Digital Post", "NemSMS"]) ∧
    rmEquiv (threaded_service_check sampleLookup
        ((submittedTasks sampleSheet ["Digital Post", "NemSMS"]).reverse))
      (linear_service_check sampleLookup sampleSheet ["Digital Post", "NemSMS"]) :=
  ⟨by decide, C10_threaded_eq_linear sampleLookup sampleSheet ["Digital Post", "NemSMS"]
    ((submittedTasks sampleSheet ["Digital Post", "NemSMS"]).reverse) (by decide)⟩

/-- Claim C8: on a sheet consisting of only the header row, every completion
order of the scheduler is empty, so the scheduler returns the empty
ResultMap (no error is possible: the model is total on such sheets), and
the annotator still succeeds, writing one header cell per requested
service and no value cells below row 1. -/
theorem C8_header_only (f : Ident → String → Bool) (sheet : Sheet) (service : List String)
    (completion : List (Ident × String))
    (h1 : sheet.nrows = 1) (hc : 1 ≤ sheet.ncols) (_hsv : service ≠ [])
    (hperm : completion.Perm (submittedTasks sheet service))
    (hwf : ∀ r c, sheet.nrows < r → sheet.getCell r c = none) :
    threaded_service_check f completion = [] ∧
    ∃ out, write_data_to_output_excel service (threaded_service_check f completion) sheet
        = .ok out ∧
      out.ncols = sheet.ncols + service.length ∧
      (∀ i, (hi : i < service.length) →
        out.getCell 1 (sheet.ncols + 1 + i) = some service[i]) ∧
      (∀ r c, 2 ≤ r → out.getCell r c = none) := by
  have hcolA : colA sheet = [] := by
    simp [colA, dataRows, h1]
  have htasks : submittedTasks sheet service = [] := by
    simp [submittedTasks, hcolA]
  rw [htasks] at hperm
  have hcompl : completion = [] := hperm.eq_nil
  have hempty : threaded_service_check f completion = [] := by
    rw [hcompl]
    rfl
  refine ⟨hempty, ?_⟩
  have hcomp : ∀ r, 2 ≤ r → r ≤ sheet.nrows → ∀ s ∈ service,
      (dLookup (threaded_service_check f completion) (sheet.getCell r 1)
        (normalizeService s)).isSome := by
    intro r h2 h3 s _
    exfalso
    rw [h1] at h3
    omega
  obtain ⟨out, hout⟩ := writeCols_exists (threaded_service_check f completion) service sheet
    hc h1.ge hcomp
  obtain ⟨_, o_nc, o_hd, _, o_fr⟩ := writeCols_ok (threaded_service_check f completion)
    service sheet out hout hc h1.ge
  refine ⟨out, hout, o_nc, o_hd, ?_⟩
  intro r c h2
  rw [o_fr r c (Or.inr (Or.inr ⟨by omega, by rw [h1]; omega⟩))]
  exact hwf r c (by rw [h1]; omega)

/-- Witness for C8 at the concrete header-only sheet. -/
theorem C8_header_only_witness :
    (headerSheet.nrows = 1 ∧ (List.Perm [] (submittedTasks headerSheet ["Digital Post"]))) ∧
    threaded_service_check sampleLookup [] = [] ∧
    ∃ out, write_data_to_output_excel ["Digital Post"]
        (threaded_service_check sampleLookup []) headerSheet = .ok out ∧
      out.ncols = headerSheet.ncols + 1 ∧
      (∀ i, (hi : i < (["Digital Post"] : List String).length) →
        out.getCell 1 (headerSheet.ncols + 1 + i) = some (["Digital Post"] : List String)[i]) ∧
      (∀ r c, 2 ≤ r → out.getCell r c = none) := by
  have hwf : ∀ r c, headerSheet.nrows < r → headerSheet.getCell r c = none := by
    intro r c h
    have h1 : (1 : Nat) < r := h
    have hne : ¬(((1 : Nat), (1 : Nat)) = (r, c)) := by
      intro hh
      have := congrArg Prod.fst hh
      simp at this
      omega
    show lookupCell [((1, 1), "CPR")] r c = none
    simp only [lookupCell]
    rw [if_neg hne]
  refine ⟨⟨rfl, by decide⟩, ?_⟩
  exact C8_header_only sampleLookup headerSheet ["Digital Post"] [] rfl (by decide)
    (by decide) (by decide) hwf

/-- All deliveries succeed. -/
def sendAll : Nat → Bool := fun _ => true

/-- Claim C9: the source mail is deleted only after its status mail was
successfully delivered: whenever the run's event trace records a deletion
for a mail id, delivery succeeded for that id and the trace contains the
delivery before the deletion; in particular, in a run where delivery fails
for a request, that request's mail is never deleted. -/
theorem C9_delete_after_send (f : Ident → String → Bool) (sendOk : Nat → Bool) :
    ∀ (mails : List Mail) (i : Nat),
      Event.deleted i ∈ (processMails f sendOk mails).1 →
      sendOk i = true ∧
      List.Sublist [Event.sent i, Event.deleted i] (processMails f sendOk mails).1 := by
  intro mails
  induction mails with
  | nil =>
    intro i h
    simp [processMails] at h
  | cons m ms ih =>
    intro i h
    cases hrec : _get_recipient_from_email m.body with
    | none => simp [processMails, hrec] at h
    | some req =>
      cases hty : _get_request_type_from_email m.body with
      | none => simp [processMails, hrec, hty] at h
      | some t =>
        cases hhd : handle_data f m.sheet t with
        | error e => simp [processMails, hrec, hty, hhd] at h
        | ok res =>
          by_cases hsend : sendOk m.id = true
          · simp only [processMails, hrec, hty, hhd, hsend, if_true] at h ⊢
            rcases List.mem_cons.mp h with heq | h2
            · exact absurd heq (by simp)
            · rcases List.mem_cons.mp h2 with heq | h3
              · rw [Event.deleted.injEq] at heq
                subst heq
                refine ⟨hsend, ?_⟩
                exact ((List.nil_sublist _).cons₂ (Event.deleted m.id)).cons₂ (Event.sent m.id)
              · obtain ⟨hs, hsub⟩ := ih i h3
                exact ⟨hs, (hsub.cons (Event.deleted m.id)).cons (Event.sent m.id)⟩
          · rw [Bool.not_eq_true] at hsend
            simp [processMails, hrec, hty, hhd, hsend] at h

/-- Witness for C9: one processable mail, delivery succeeding. -/
theorem C9_delete_after_send_witness :
    (Event.deleted 2 ∈ (processMails sampleLookup sendAll [goodMail]).1) ∧
    (sendAll 2 = true ∧
      List.Sublist [Event.sent 2, Event.deleted 2]
        (processMails sampleLookup sendAll [goodMail]).1) :=
  ⟨by decide, C9_delete_after_send sampleLookup sendAll [goodMail] 2 (by decide)⟩

/-- Counterexample to C3 as stated: with a malformed first request followed
by a perfectly processable one, the run aborts at the malformed request
and the second request is never processed (its status mail is never sent),
although it is processed when it arrives alone — the pipeline does not
continue with the next incoming request. -/
theorem C3_counterexample :
    (_get_recipient_from_email badMail.body = none) ∧
    Event.sent 2 ∈ (processMails sampleLookup sendAll [goodMail]).1 ∧
    Event.sent 2 ∉ (processMails sampleLookup sendAll [badMail, goodMail]).1 ∧
    processMails sampleLookup sendAll [badMail, goodMail] = ([], false) := by
  decide

/-- Claim C3 (amended): if the interpreter finds no requester-address match
or no service-type match, the malformed-request error is surfaced, never a
silent default to both services — but the un-guarded loop then aborts the
whole run at that request: nothing is sent or deleted for it, and the
remaining requests of the run are not processed either. -/
theorem C3_malformed_aborts_run (f : Ident → String → Bool) (sendOk : Nat → Bool)
    (m : Mail) (ms : List Mail)
    (h : _get_recipient_from_email m.body = none ∨
      _get_request_type_from_email m.body = none) :
    processMails f sendOk (m :: ms) = ([], false) := by
  rcases h with h | h
  · simp [processMails, h]
  · cases hrec : _get_recipient_from_email m.body with
    | none => simp [processMails, hrec]
    | some req => simp [processMails, hrec, h]

/-- Witness for the amended C3: malformed head request aborts the whole run. -/
theorem C3_malformed_aborts_run_witness :
    (_get_recipient_from_email badMail.body = none ∨
      _get_request_type_from_email badMail.body = none) ∧
    processMails sampleLookup sendAll [badMail, goodMail] = ([], false) :=
  ⟨Or.inl (by decide),
    C3_malformed_aborts_run sampleLookup sendAll badMail [goodMail] (Or.inl (by decide))⟩

/-- Claim C7: for request text containing the recognizable
`mailto:jane@example.com` marker (quote-delimited, first mailto occurrence)
and, later, the first occurrence of the `Digital Post eller NemSMS<br>`
marker followed by `Begge<`, the interpreter extracts exactly
`jane@example.com` and the request type maps to the service list containing
both Digital Post and NemSMS. -/
theorem C7_interpreter (body : String) (pre mid post : List Char)
    (hbody : body.toList = pre ++ ("mailto:".toList ++ ("jane@example.com".toList ++
      ('"' :: (mid ++ ("Digital Post eller NemSMS<br>".toList ++
        ("Begge".toList ++ '<' :: post)))))))
    (h1 : ∀ i, i < pre.length → ¬ markerAt "mailto:".toList body.toList i)
    (h2 : ∀ i, i < pre.length + 24 + mid.length →
      ¬ markerAt "Digital Post eller NemSMS<br>".toList body.toList i) :
    _get_recipient_from_email body = some "jane@example.com" ∧
    (_get_request_type_from_email body).map serviceFor
      = some ["Digital Post", "NemSMS"] := by
  have hbody2 : body.toList =
      (pre ++ ("mailto:".toList ++ ("jane@example.com".toList ++ ('"' :: mid))))
        ++ ("Digital Post eller NemSMS<br>".toList ++ ("Begge".toList ++ '<' :: post)) := by
    rw [hbody]
    simp [List.append_assoc]
  have hlen2 : (pre ++ ("mailto:".toList ++ ("jane@example.com".toList ++ ('"' :: mid)))).length
      = pre.length + 24 + mid.length := by
    have l1 : ("mailto:".toList).length = 7 := rfl
    have l2 : ("jane@example.com".toList).length = 16 := rfl
    simp only [List.length_append, List.length_cons, l1, l2]
    omega
  constructor
  · have hrw : ("jane@example.com".toList ++
        ('"' :: (mid ++ ("Digital Post eller NemSMS<br>".toList ++
          ("Begge".toList ++ '<' :: post))))).takeWhile (fun c => !(c == '"'))
        = "jane@example.com".toList :=
      takeWhile_all_append _ _ _ _ (by decide) (by decide)
    have hocc : ∀ i, i < pre.length →
        startsWith "mailto:".toList
          ((pre ++ ("mailto:".toList ++ ("jane@example.com".toList ++
            ('"' :: (mid ++ ("Digital Post eller NemSMS<br>".toList ++
              ("Begge".toList ++ '<' :: post))))))).drop i) = false := by
      intro i hi
      have hh := h1 i hi
      rw [markerAt, hbody] at hh
      simp only [Bool.not_eq_true] at hh
      exact hh
    simp only [_get_recipient_from_email, hbody]
    rw [findCapture_spec "mailto:".toList (fun c => !(c == '"')) pre
      ("jane@example.com".toList ++ ('"' :: (mid ++ ("Digital Post eller NemSMS<br>".toList ++
        ("Begge".toList ++ '<' :: post))))) (by decide) hocc (by rw [hrw]; decide)]
    rw [hrw]
    rfl
  · have hrw2 : ("Begge".toList ++ '<' :: post).takeWhile (fun c => !(c == '<'))
        = "Begge".toList :=
      takeWhile_all_append _ _ _ _ (by decide) (by decide)
    have hocc2 : ∀ i,
        i < (pre ++ ("mailto:".toList ++ ("jane@example.com".toList ++ ('"' :: mid)))).length →
        startsWith "Digital Post eller NemSMS<br>".toList
          (((pre ++ ("mailto:".toList ++ ("jane@example.com".toList ++ ('"' :: mid))))
            ++ ("Digital Post eller NemSMS<br>".toList ++
              ("Begge".toList ++ '<' :: post))).drop i) = false := by
      intro i hi
      rw [hlen2] at hi
      have hh := h2 i hi
      rw [markerAt] at hh
      rw [← hbody2]
      simp only [Bool.not_eq_true] at hh
      exact hh
    simp only [_get_request_type_from_email, hbody2]
    rw [findCapture_spec "Digital Post eller NemSMS<br>".toList (fun c => !(c == '<'))
      (pre ++ ("mailto:".toList ++ ("jane@example.com".toList ++ ('"' :: mid))))
      ("Begge".toList ++ '<' :: post) (by decide) hocc2 (by rw [hrw2]; decide)]
    rw [hrw2]
    decide

/-- Witness for C7 at a concrete request body containing both markers. -/
theorem C7_interpreter_witness :
    (∀ i, i < ("contact: ".toList).length →
      ¬ markerAt "mailto:".toList goodBody.toList i) ∧
    (_get_recipient_from_email goodBody = some "jane@example.com" ∧
      (_get_request_type_from_email goodBody).map serviceFor
        = some ["Digital Post", "NemSMS"]) :=
  ⟨by decide,
    C7_interpreter goodBody "contact: ".toList " hello ".toList "br>".toList
      (by decide) (by decide) (by decide)⟩

end UdtraekDigitalPost
